import Mathlib

/-!
Shallow embedding of `src/eval/global_state.rs` — the global runtime-state
container (`GlobalRuntimeState`) of the rhai scripting engine, together with
proofs of the specification's claims about it.

Modelling conventions:
* `StaticVec<T>` (a smallvec) is modelled as `List T`; `push` appends at the
  end, `truncate` is `List.take`, `get(i)` is `l[i]?`.
* `ImmutableString` is modelled as `String`.
* `u64` hashes are modelled as `Nat` with reduction `% 2 ^ 64` where a value
  is produced; `TypeId` is modelled as `Nat`.
* `Dynamic` (an opaque host value, only stored and copied by this component,
  never inspected) is modelled as `Nat`.
* `Shared<Locked<...>>` (the reference-counted, lock-protected constants
  cache) is modelled as a handle (`Nat`) into an explicit heap of constant
  maps; cloning the container copies the handle, not the heap contents,
  exactly as Rust's derived `Clone` copies the `Arc`.
* Rust `&mut self` methods become pure functions returning the new state
  (paired with the returned value where there is one).
-/

namespace Rhai

/-- Host values (`Dynamic`) are opaque to this component: it only stores and
copies them.  Modelled as `Nat`. -/
abbrev Dyn := Nat

/-- Modelled from the spec: an imported namespace (`crate::Module`, an
external collaborator whose code is outside this subsystem).  It owns a
dispatch table from function hash to function, a table from iterator type
tag to iterator constructor, a may-contain filter for dynamic functions, and
an optional id string.  `contains_qualified_fn` / `contains_qualified_iter`
query the same tables as `get_qualified_fn` / `get_qualified_iter`.
`CallableFunction` and `IteratorFn` values are opaque here, modelled as
`Nat`. -/
structure Module where
  id : Option String
  fns : Nat → Option Nat
  dyn_fns : Nat → Bool
  iters : Nat → Option Nat

/-- Modelled from the spec: module-level qualified-function lookup. -/
def Module.get_qualified_fn (m : Module) (hash : Nat) : Option Nat :=
  m.fns hash

/-- Modelled from the spec: module-level qualified-function membership,
over the same table as `Module.get_qualified_fn`. -/
def Module.contains_qualified_fn (m : Module) (hash : Nat) : Bool :=
  (m.fns hash).isSome

/-- Modelled from the spec: module-level dynamic-function filter. -/
def Module.may_contain_dynamic_fn (m : Module) (hash : Nat) : Bool :=
  m.dyn_fns hash

/-- Modelled from the spec: module-level qualified-iterator lookup. -/
def Module.get_qualified_iter (m : Module) (id : Nat) : Option Nat :=
  m.iters id

/-- Modelled from the spec: module-level qualified-iterator membership,
over the same table as `Module.get_qualified_iter`. -/
def Module.contains_qualified_iter (m : Module) (id : Nat) : Bool :=
  (m.iters id).isSome

/-- Modelled from the spec: the module id accessor (`id_raw`). -/
def Module.id_raw (m : Module) : Option String :=
  m.id

/-- A shared module handle; modules are read-only through this component, so
value semantics are faithful. -/
abbrev SharedModule := Module

/-- Debugger status (`DebuggerStatus`); modelled from the spec: initial
status is `Init` when a debugger is configured, `CONTINUE` otherwise.
All other transitions are driven by the external debugger collaborator. -/
inductive DebuggerStatus where
  | Init : DebuggerStatus
  | CONTINUE : DebuggerStatus
deriving DecidableEq

/-- Debugging interface state: a status plus an opaque host context value. -/
structure Debugger where
  status : DebuggerStatus
  state : Dyn
deriving DecidableEq

/-- Modelled from the spec: `Debugger::new(status, context)`. -/
def Debugger.new (status : DebuggerStatus) (state : Dyn) : Debugger :=
  ⟨status, state⟩

/-- Modelled from the spec: the slice of `Engine` visible to this component
at construction time — the default host tag value and, when a debugger is
configured, the context produced by the engine-supplied init callback. -/
structure Engine where
  default_tag : Dyn
  debugger : Option Dyn

/-- Modelled from the spec: `calc_fn_hash` (external to this file in the
source) — a deterministic hash of an optional namespace, a function
identifier and an arity, into `u64`.  The concrete mixing function is a
model; this component only relies on the hash being a fixed deterministic
function of its inputs. -/
def calc_fn_hash (ns : Option String) (fn_name : String) (num : Nat) : Nat :=
  let base : Nat := match ns with
    | some n => 5381 * 33 + n.length
    | none => 5381
  ((base * 31 + fn_name.length) * 2654435761 + num) % 2 ^ 64

/-- The index-getter operator identifier (`crate::engine::FN_IDX_GET`). -/
def FN_IDX_GET : String := "index$get$"

/-- The index-setter operator identifier (`crate::engine::FN_IDX_SET`). -/
def FN_IDX_SET : String := "index$set$"

/-- One name-sorted constants map (`BTreeMap<ImmutableString, Dynamic>`). -/
abbrev ConstMap := List (String × Dyn)

/-- `BTreeMap::insert`: keep the list sorted by key, replacing the value of
an existing key. -/
def constMapInsert (m : ConstMap) (k : String) (v : Dyn) : ConstMap :=
  match m with
  | [] => [(k, v)]
  | (k', v') :: rest =>
    if k = k' then (k, v) :: rest
    else if k < k' then (k, v) :: (k', v') :: rest
    else (k', v') :: constMapInsert rest k v

/-- `BTreeMap::get`: first (unique) entry with the given key. -/
def constMapFind (m : ConstMap) (k : String) : Option Dyn :=
  match m with
  | [] => none
  | (k', v') :: rest => if k = k' then some v' else constMapFind rest k

/-- The heap of constants caches: a `GlobalConstants` value
(`Shared<Locked<BTreeMap<..>>>`) is a handle (`Nat`) into this heap, so that
clones sharing a handle observe each other's writes. -/
abbrev ConstHeap := Nat → ConstMap

/-- Write one cell of the constants heap. -/
def heapUpdate (hp : ConstHeap) (i : Nat) (m : ConstMap) : ConstHeap :=
  fun j => if j = i then m else hp j

/-- The scan of `find_import` on the bare list of names:
`imports.iter().rev().position(|key| key == name).map(|i| len - 1 - i)`. -/
def findImportList (l : List String) (name : String) : Option Nat :=
  (l.reverse.findIdx? (fun key => key == name)).map (fun i => l.length - 1 - i)

/-- `GlobalRuntimeState`: names and handles of imported modules kept in two
lockstep lists, the loaded-library stack, current source label, counters,
scope tracking, the memoized indexing-hash pair, the optional embedded
module resolver (a handle), the optional shared constants-cache handle, the
host tag, and the debugger state. -/
structure GlobalRuntimeState where
  imports : List String
  modules : List SharedModule
  lib : List SharedModule
  source : Option String
  num_operations : Nat
  num_modules_loaded : Nat
  level : Nat
  scope_level : Nat
  always_search_scope : Bool
  fn_hash_indexing : Nat × Nat
  embedded_module_resolver : Option Nat
  constants : Option Nat
  tag : Dyn
  debugger : Debugger

namespace GlobalRuntimeState

/-- `GlobalRuntimeState::new(engine)`. -/
def new (engine : Engine) : GlobalRuntimeState where
  imports := []
  modules := []
  lib := []
  source := none
  num_operations := 0
  num_modules_loaded := 0
  scope_level := 0
  level := 0
  always_search_scope := false
  embedded_module_resolver := none
  fn_hash_indexing := (0, 0)
  constants := none
  tag := engine.default_tag
  debugger :=
    Debugger.new
      (if engine.debugger.isSome then DebuggerStatus.Init
       else DebuggerStatus.CONTINUE)
      (match engine.debugger with
       | some ctx => ctx
       | none => 0)

/-- `num_imports`: length of the stack of globally-imported modules. -/
def num_imports (g : GlobalRuntimeState) : Nat :=
  g.modules.length

/-- `get_shared_import(index)`: the module at a particular index (cloned
handle, hence a value here). -/
def get_shared_import (g : GlobalRuntimeState) (index : Nat) : Option SharedModule :=
  g.modules[index]?

/-- `find_import(name)`: index of a globally-imported module by name,
scanning from the most recently pushed entry backward. -/
def find_import (g : GlobalRuntimeState) (name : String) : Option Nat :=
  findImportList g.imports name

/-- `push_import(name, module)`: push onto both lockstep stacks. -/
def push_import (g : GlobalRuntimeState) (name : String) (module : SharedModule) :
    GlobalRuntimeState :=
  { g with imports := g.imports ++ [name], modules := g.modules ++ [module] }

/-- `truncate_imports(size)`: truncate both lockstep stacks. -/
def truncate_imports (g : GlobalRuntimeState) (size : Nat) : GlobalRuntimeState :=
  { g with imports := g.imports.take size, modules := g.modules.take size }

/-- `iter_imports`: the import stack in reverse (most recent first) order. -/
def iter_imports (g : GlobalRuntimeState) : List (String × SharedModule) :=
  (g.imports.zip g.modules).reverse

/-- `scan_imports_raw`: the import stack in forward (insertion) order. -/
def scan_imports_raw (g : GlobalRuntimeState) : List (String × SharedModule) :=
  g.imports.zip g.modules

/-- `may_contain_dynamic_fn(hash_script)`: any module in the stack may
contain the dynamic function. -/
def may_contain_dynamic_fn (g : GlobalRuntimeState) (hash_script : Nat) : Bool :=
  g.modules.any (fun m => m.may_contain_dynamic_fn hash_script)

/-- `contains_qualified_fn(hash)`: any module in the stack contains the
function hash. -/
def contains_qualified_fn (g : GlobalRuntimeState) (hash : Nat) : Bool :=
  g.modules.any (fun m => m.contains_qualified_fn hash)

/-- `get_qualified_fn(hash)`: first match scanning the module stack in
reverse order, paired with the owning module's id. -/
def get_qualified_fn (g : GlobalRuntimeState) (hash : Nat) :
    Option (Nat × Option String) :=
  g.modules.reverse.findSome?
    (fun m => (m.get_qualified_fn hash).map (fun f => (f, m.id_raw)))

/-- `contains_iter(id)`: any module in the stack contains the iterator. -/
def contains_iter (g : GlobalRuntimeState) (id : Nat) : Bool :=
  g.modules.any (fun m => m.contains_qualified_iter id)

/-- `get_iter(id)`: first match scanning the module stack in reverse
order. -/
def get_iter (g : GlobalRuntimeState) (id : Nat) : Option Nat :=
  g.modules.reverse.findSome? (fun m => m.get_qualified_iter id)

/-- The `source()` accessor: `self.source.as_ref().map(|s| s.as_str())`. -/
def source_accessor (g : GlobalRuntimeState) : Option String :=
  g.source.map (fun s => s)

/-- `hash_idx_get()`: the memoized index-getter hash; computes and stores
both hashes on first call (sentinel `(0, 0)` observed), then serves the
cached first component.  Returns the value and the updated state. -/
def hash_idx_get (g : GlobalRuntimeState) : Nat × GlobalRuntimeState :=
  if g.fn_hash_indexing = (0, 0) then
    let n1 := calc_fn_hash none FN_IDX_GET 2
    let n2 := calc_fn_hash none FN_IDX_SET 3
    (n1, { g with fn_hash_indexing := (n1, n2) })
  else
    (g.fn_hash_indexing.1, g)

/-- `hash_idx_set()`: the memoized index-setter hash; computes and stores
both hashes on first call (sentinel `(0, 0)` observed), then serves the
cached second component.  Returns the value and the updated state. -/
def hash_idx_set (g : GlobalRuntimeState) : Nat × GlobalRuntimeState :=
  if g.fn_hash_indexing = (0, 0) then
    let n1 := calc_fn_hash none FN_IDX_GET 2
    let n2 := calc_fn_hash none FN_IDX_SET 3
    (n2, { g with fn_hash_indexing := (n1, n2) })
  else
    (g.fn_hash_indexing.2, g)

/-- The derived `Clone`: a field-wise copy.  The import stack and all
counters are copied by value; `constants` and `embedded_module_resolver`
are handles, so only the handle is copied and the pointed-to contents stay
shared. -/
def clone (g : GlobalRuntimeState) : GlobalRuntimeState := g

/-- The `Extend<(K, M)>` impl: push each name/module pair in order onto the
two lockstep stacks. -/
def extend (g : GlobalRuntimeState) (l : List (String × SharedModule)) :
    GlobalRuntimeState :=
  l.foldl (fun s km => s.push_import km.1 km.2) g

end GlobalRuntimeState

/-- Declare a global constant through a container's constants-cache handle:
lock the shared map and insert.  A container without an active cache leaves
the heap unchanged (in the source the evaluator creates the cache before
first use; modelling the no-cache case as a no-op is enough for the claims
here). -/
def declareConstant (hp : ConstHeap) (g : GlobalRuntimeState) (name : String)
    (v : Dyn) : ConstHeap :=
  match g.constants with
  | some h => heapUpdate hp h (constMapInsert (hp h) name v)
  | none => hp

/-- Read a global constant through a container's constants-cache handle. -/
def getConstant (hp : ConstHeap) (g : GlobalRuntimeState) (name : String) :
    Option Dyn :=
  match g.constants with
  | some h => constMapFind (hp h) name
  | none => none

/-- The clone scenario of the spec: clone a container, declare a constant
through the clone, push an import through the clone.  Returns the world
after: the constants heap, the untouched original, and the mutated clone. -/
def cloneDeclarePush (hp : ConstHeap) (g : GlobalRuntimeState) (name : String)
    (v : Dyn) (impName : String) (mod : SharedModule) :
    ConstHeap × GlobalRuntimeState × GlobalRuntimeState :=
  let c := g.clone
  let hp2 := declareConstant hp c name v
  let c2 := c.push_import impName mod
  (hp2, g, c2)

/-- States of this component reachable through its own constructors and
mutating operations. -/
inductive Reachable : GlobalRuntimeState → Prop where
  | new (e : Engine) : Reachable (GlobalRuntimeState.new e)
  | push (g : GlobalRuntimeState) (n : String) (m : SharedModule) :
      Reachable g → Reachable (g.push_import n m)
  | trunc (g : GlobalRuntimeState) (n : Nat) :
      Reachable g → Reachable (g.truncate_imports n)
  | ext (g : GlobalRuntimeState) (l : List (String × SharedModule)) :
      Reachable g → Reachable (g.extend l)
  | idx_get (g : GlobalRuntimeState) :
      Reachable g → Reachable g.hash_idx_get.2
  | idx_set (g : GlobalRuntimeState) :
      Reachable g → Reachable g.hash_idx_set.2
  | cl (g : GlobalRuntimeState) :
      Reachable g → Reachable g.clone

/-! Helper lemmas about the list-level scans. -/

theorem findImportList_append_eq (l : List String) (name : String) :
    findImportList (l ++ [name]) name = some l.length := by
  simp [findImportList, List.reverse_append, List.findIdx?_cons]

theorem findImportList_append_ne (l : List String) (a name : String)
    (h : a ≠ name) : findImportList (l ++ [a]) name = findImportList l name := by
  simp only [findImportList, List.reverse_append, List.reverse_cons,
    List.reverse_nil, List.nil_append, List.singleton_append,
    List.findIdx?_cons, List.findIdx?_succ, List.length_append,
    List.length_singleton]
  rw [if_neg (by simp [h])]
  rw [Option.map_map]
  apply congrArg (fun f => Option.map f (l.reverse.findIdx? fun key => key == name))
  funext i
  simp only [Function.comp_apply]
  omega

theorem findImportList_last (l : List String) (name : String) :
    ∀ i : Nat, findImportList l name = some i →
      l[i]? = some name ∧ ∀ j, i < j → l[j]? ≠ some name := by
  induction l using List.reverseRecOn with
  | nil => intro i h; simp [findImportList] at h
  | append_singleton l a ih =>
    intro i h
    by_cases ha : a = name
    · subst ha
      rw [findImportList_append_eq] at h
      obtain rfl : l.length = i := by injection h
      refine ⟨List.getElem?_concat_length l a, ?_⟩
      intro j hj
      rw [List.getElem?_eq_none (by simp; omega)]
      simp
    · rw [findImportList_append_ne l a name ha] at h
      obtain ⟨h1, h2⟩ := ih i h
      have hi : i < l.length := by
        rcases List.getElem?_eq_some.mp h1 with ⟨hlt, _⟩
        exact hlt
      constructor
      · rw [List.getElem?_append, if_pos hi]; exact h1
      · intro j hj hcontra
        rw [List.getElem?_append] at hcontra
        by_cases hjl : j < l.length
        · rw [if_pos hjl] at hcontra
          exact h2 j hj hcontra
        · rw [if_neg hjl] at hcontra
          rcases Nat.lt_or_ge (j - l.length) 1 with hd | hd
          · have : j - l.length = 0 := by omega
            rw [this] at hcontra
            simp at hcontra
            exact ha hcontra
          · rw [List.getElem?_eq_none (by simp; omega)] at hcontra
            exact Option.noConfusion hcontra

theorem findImportList_isSome (l : List String) (name : String) :
    ∀ j : Nat, l[j]? = some name → (findImportList l name).isSome = true := by
  induction l using List.reverseRecOn with
  | nil => intro j h; simp at h
  | append_singleton l a ih =>
    intro j h
    by_cases ha : a = name
    · subst ha; rw [findImportList_append_eq]; rfl
    · rw [findImportList_append_ne l a name ha]
      rw [List.getElem?_append] at h
      by_cases hjl : j < l.length
      · rw [if_pos hjl] at h
        exact ih j h
      · rw [if_neg hjl] at h
        rcases Nat.lt_or_ge (j - l.length) 1 with hd | hd
        · have : j - l.length = 0 := by omega
          rw [this] at h
          simp at h
          exact absurd h ha
        · rw [List.getElem?_eq_none (by simp; omega)] at h
          exact Option.noConfusion h

theorem findSome?_reverse_last {α β : Type} (f : α → Option β) (l : List α) :
    ∀ (i : Nat) (x : α) (r : β), l[i]? = some x → f x = some r →
      (∀ j, i < j → ∀ y, l[j]? = some y → f y = none) →
      l.reverse.findSome? f = some r := by
  induction l using List.reverseRecOn with
  | nil => intro i x r h; simp at h
  | append_singleton l a ih =>
    intro i x r hx hf hlast
    rw [List.reverse_append]
    simp only [List.reverse_cons, List.reverse_nil, List.nil_append,
      List.singleton_append, List.findSome?_cons]
    rcases Nat.lt_trichotomy i l.length with hi | hi | hi
    · have hfa : f a = none := by
        refine hlast l.length hi a ?_
        exact List.getElem?_concat_length l a
      rw [hfa]
      have hx' : l[i]? = some x := by
        rw [List.getElem?_append, if_pos hi] at hx
        exact hx
      refine ih i x r hx' hf ?_
      intro j hj y hy
      refine hlast j hj y ?_
      have hjl : j < l.length := by
        rcases List.getElem?_eq_some.mp hy with ⟨hlt, _⟩
        exact hlt
      rw [List.getElem?_append, if_pos hjl]
      exact hy
    · subst hi
      have : (l ++ [a])[l.length]? = some a := List.getElem?_concat_length l a
      rw [hx] at this
      obtain rfl : x = a := by injection this
      rw [hf]
    · rw [List.getElem?_eq_none (by simp; omega)] at hx
      exact Option.noConfusion hx

theorem isSome_findSome? {α β : Type} (f : α → Option β) (l : List α) :
    (l.findSome? f).isSome = l.any (fun x => (f x).isSome) := by
  induction l with
  | nil => rfl
  | cons a as ih =>
    rw [List.findSome?_cons]
    cases hfa : f a with
    | none => simp [hfa, ih]
    | some b => simp [hfa]

theorem constMapFind_insert (m : ConstMap) (k : String) (v : Dyn) :
    constMapFind (constMapInsert m k v) k = some v := by
  induction m with
  | nil => simp [constMapInsert, constMapFind]
  | cons kv rest ih =>
    obtain ⟨k', v'⟩ := kv
    by_cases hk : k = k'
    · simp [constMapInsert, hk, constMapFind]
    · by_cases hlt : k < k'
      · simp [constMapInsert, hk, hlt, constMapFind]
      · simp [constMapInsert, hk, hlt, constMapFind, ih]

/-! Concrete fixtures used by the witness theorems. -/

/-- An engine with no debugger and a zero default tag. -/
def e0 : Engine := { default_tag := 0, debugger := none }

/-- A concrete module exposing function hash `5` as function value `1` and
iterator tag `9` as iterator `11`. -/
def modA : Module where
  id := some "A"
  fns := fun h => if h = 5 then some 1 else none
  dyn_fns := fun _ => false
  iters := fun i => if i = 9 then some 11 else none

/-- A concrete module exposing function hash `5` as function value `2` and
iterator tag `9` as iterator `22`. -/
def modB : Module where
  id := some "B"
  fns := fun h => if h = 5 then some 2 else none
  dyn_fns := fun _ => false
  iters := fun i => if i = 9 then some 22 else none

/-- C1: pushing `("m", A)` and then `("m", B)` makes `find_import "m"`
return the index of the later entry, and `get_shared_import` at that index
returns `B`; in general `find_import` returns the index of the
most-recently-pushed matching entry (the returned index holds the name and
no later index does, and whenever some entry matches, `find_import`
succeeds), so later imports shadow earlier ones sharing an alias. -/
theorem C1_find_import_shadowing (g : GlobalRuntimeState) (A B : SharedModule)
    (m : String) (hlock : g.imports.length = g.modules.length) :
    ((g.push_import m A).push_import m B).find_import m
        = some (g.imports.length + 1)
    ∧ ((g.push_import m A).push_import m B).get_shared_import
        (g.imports.length + 1) = some B
    ∧ (∀ (gp : GlobalRuntimeState) (name : String) (i : Nat),
        gp.find_import name = some i →
          gp.imports[i]? = some name ∧ ∀ j, i < j → gp.imports[j]? ≠ some name)
    ∧ (∀ (gp : GlobalRuntimeState) (name : String) (j : Nat),
        gp.imports[j]? = some name → (gp.find_import name).isSome = true) := by
  refine ⟨?_, ?_, ?_, ?_⟩
  · show findImportList ((g.imports ++ [m]) ++ [m]) m = some (g.imports.length + 1)
    rw [findImportList_append_eq]
    simp
  · show ((g.modules ++ [A]) ++ [B])[g.imports.length + 1]? = some B
    rw [hlock]
    have hlen : (g.modules ++ [A]).length = g.modules.length + 1 := by simp
    rw [← hlen]
    exact List.getElem?_concat_length _ _
  · intro gp name i h
    exact findImportList_last gp.imports name i h
  · intro gp name j h
    exact findImportList_isSome gp.imports name j h

/-- Witness for C1 at a concrete state: the empty fresh state is in
lockstep, and the double push of alias `"m"` resolves to index 1 holding
`modB`. -/
theorem C1_witness :
    (GlobalRuntimeState.new e0).imports.length
        = (GlobalRuntimeState.new e0).modules.length
    ∧ (((GlobalRuntimeState.new e0).push_import "m" modA).push_import
        "m" modB).find_import "m" = some 1
    ∧ (((GlobalRuntimeState.new e0).push_import "m" modA).push_import
        "m" modB).get_shared_import 1 = some modB := by
  have h := C1_find_import_shadowing (GlobalRuntimeState.new e0) modA modB "m" rfl
  exact ⟨rfl, h.1, h.2.1⟩

/-- C2: truncating the import stack to `n ≤` the current length leaves
both lockstep lists of length `n`, and every name/module pair below `n` is
unchanged and still aligned at its index. -/
theorem C2_truncate_preserves (g : GlobalRuntimeState) (n : Nat)
    (hn : n ≤ g.imports.length) (hm : n ≤ g.modules.length) :
    (g.truncate_imports n).imports.length = n
    ∧ (g.truncate_imports n).modules.length = n
    ∧ ∀ i, i < n →
        (g.truncate_imports n).imports[i]? = g.imports[i]?
        ∧ (g.truncate_imports n).modules[i]? = g.modules[i]? := by
  refine ⟨?_, ?_, ?_⟩
  · simp [GlobalRuntimeState.truncate_imports, List.length_take,
      Nat.min_eq_left hn]
  · simp [GlobalRuntimeState.truncate_imports, List.length_take,
      Nat.min_eq_left hm]
  · intro i hi
    constructor <;>
      simp [GlobalRuntimeState.truncate_imports, List.getElem?_take, hi]

/-- Witness for C2: push one import onto a fresh state, truncate to 1. -/
theorem C2_witness :
    1 ≤ ((GlobalRuntimeState.new e0).push_import "m" modA).imports.length
    ∧ (((GlobalRuntimeState.new e0).push_import "m" modA).truncate_imports
        1).imports.length = 1
    ∧ (((GlobalRuntimeState.new e0).push_import "m" modA).truncate_imports
        1).imports[0]?
        = ((GlobalRuntimeState.new e0).push_import "m" modA).imports[0]? := by
  have h := C2_truncate_preserves
    ((GlobalRuntimeState.new e0).push_import "m" modA) 1
    (by decide) (by decide)
  exact ⟨by decide, h.1, (h.2.2 0 (by decide)).1⟩

/-- The `Extend` impl preserves the lockstep invariant. -/
theorem extend_lockstep (l : List (String × SharedModule)) :
    ∀ g : GlobalRuntimeState, g.imports.length = g.modules.length →
      (g.extend l).imports.length = (g.extend l).modules.length := by
  induction l with
  | nil => intro g h; exact h
  | cons km rest ih =>
    intro g h
    simp only [GlobalRuntimeState.extend, List.foldl_cons]
    exact ih (g.push_import km.1 km.2) (by simp [GlobalRuntimeState.push_import, h])

/-- C3: `len(imports) = len(modules)` holds after construction and is
preserved by every mutating operation of this component, hence in every
reachable state. -/
theorem C3_lockstep_invariant (g : GlobalRuntimeState) (hg : Reachable g) :
    g.imports.length = g.modules.length := by
  induction hg with
  | new e => rfl
  | push g n m _ ih => simp [GlobalRuntimeState.push_import, ih]
  | trunc g n _ ih =>
    simp [GlobalRuntimeState.truncate_imports, List.length_take, ih]
  | ext g l _ ih => exact extend_lockstep l g ih
  | idx_get g _ ih =>
    unfold GlobalRuntimeState.hash_idx_get
    split <;> simpa using ih
  | idx_set g _ ih =>
    unfold GlobalRuntimeState.hash_idx_set
    split <;> simpa using ih
  | cl g _ ih => exact ih

/-- Witness for C3: one pushed import on a fresh state is reachable and in
lockstep. -/
theorem C3_witness :
    Reachable ((GlobalRuntimeState.new e0).push_import "m" modA)
    ∧ ((GlobalRuntimeState.new e0).push_import "m" modA).imports.length
        = ((GlobalRuntimeState.new e0).push_import "m" modA).modules.length := by
  have hr : Reachable ((GlobalRuntimeState.new e0).push_import "m" modA) :=
    Reachable.push _ _ _ (Reachable.new e0)
  exact ⟨hr, C3_lockstep_invariant _ hr⟩

/-- The pair of indexing hashes actually computed on a cache miss is not the
uncomputed sentinel `(0, 0)`. -/
theorem hash_pair_ne_sentinel :
    (calc_fn_hash none FN_IDX_GET 2, calc_fn_hash none FN_IDX_SET 3)
      ≠ ((0 : Nat), (0 : Nat)) := by
  decide

/-- Unfolding of `hash_idx_get` on the uncomputed sentinel. -/
theorem hash_idx_get_uncomputed (g : GlobalRuntimeState)
    (h : g.fn_hash_indexing = (0, 0)) :
    g.hash_idx_get = (calc_fn_hash none FN_IDX_GET 2,
      { g with fn_hash_indexing :=
          (calc_fn_hash none FN_IDX_GET 2, calc_fn_hash none FN_IDX_SET 3) }) := by
  unfold GlobalRuntimeState.hash_idx_get
  rw [if_pos h]

/-- Unfolding of `hash_idx_get` on an already computed cache. -/
theorem hash_idx_get_computed (g : GlobalRuntimeState)
    (h : g.fn_hash_indexing ≠ (0, 0)) :
    g.hash_idx_get = (g.fn_hash_indexing.1, g) := by
  unfold GlobalRuntimeState.hash_idx_get
  rw [if_neg h]

/-- Unfolding of `hash_idx_set` on the uncomputed sentinel. -/
theorem hash_idx_set_uncomputed (g : GlobalRuntimeState)
    (h : g.fn_hash_indexing = (0, 0)) :
    g.hash_idx_set = (calc_fn_hash none FN_IDX_SET 3,
      { g with fn_hash_indexing :=
          (calc_fn_hash none FN_IDX_GET 2, calc_fn_hash none FN_IDX_SET 3) }) := by
  unfold GlobalRuntimeState.hash_idx_set
  rw [if_pos h]

/-- Unfolding of `hash_idx_set` on an already computed cache. -/
theorem hash_idx_set_computed (g : GlobalRuntimeState)
    (h : g.fn_hash_indexing ≠ (0, 0)) :
    g.hash_idx_set = (g.fn_hash_indexing.2, g) := by
  unfold GlobalRuntimeState.hash_idx_set
  rw [if_neg h]

/-- C4: two consecutive calls to the index-getter-hash accessor return an
identical value (likewise the setter accessor); a first call on the
uncomputed sentinel fills both slots with the pair of computed hashes, and
the setter accessor then returns the cached second slot without
recomputation (its value and its state are exactly the cached ones); once
the cache holds a non-sentinel value, neither accessor ever changes it. -/
theorem C4_hash_memoization (g : GlobalRuntimeState)
    (h0 : g.fn_hash_indexing = (0, 0)) :
    (∀ gp : GlobalRuntimeState,
        gp.hash_idx_get.1 = gp.hash_idx_get.2.hash_idx_get.1
        ∧ gp.hash_idx_set.1 = gp.hash_idx_set.2.hash_idx_set.1)
    ∧ g.hash_idx_get.2.fn_hash_indexing
        = (calc_fn_hash none FN_IDX_GET 2, calc_fn_hash none FN_IDX_SET 3)
    ∧ g.hash_idx_get.2.hash_idx_set
        = (g.hash_idx_get.2.fn_hash_indexing.2, g.hash_idx_get.2)
    ∧ (∀ gp : GlobalRuntimeState, gp.fn_hash_indexing ≠ (0, 0) →
        gp.hash_idx_get.2.fn_hash_indexing = gp.fn_hash_indexing
        ∧ gp.hash_idx_set.2.fn_hash_indexing = gp.fn_hash_indexing) := by
  refine ⟨?_, ?_, ?_, ?_⟩
  · intro gp
    by_cases hc : gp.fn_hash_indexing = (0, 0)
    · have hne : ({ gp with fn_hash_indexing :=
          (calc_fn_hash none FN_IDX_GET 2, calc_fn_hash none FN_IDX_SET 3) }
            : GlobalRuntimeState).fn_hash_indexing ≠ (0, 0) :=
        hash_pair_ne_sentinel
      simp only [hash_idx_get_uncomputed gp hc, hash_idx_set_uncomputed gp hc,
        hash_idx_get_computed _ hne, hash_idx_set_computed _ hne]
      exact ⟨trivial, trivial⟩
    · simp only [hash_idx_get_computed gp hc, hash_idx_set_computed gp hc]
      exact ⟨trivial, trivial⟩
  · rw [hash_idx_get_uncomputed g h0]
  · rw [hash_idx_get_uncomputed g h0]
    exact hash_idx_set_computed _ hash_pair_ne_sentinel
  · intro gp hne
    rw [hash_idx_get_computed gp hne, hash_idx_set_computed gp hne]
    exact ⟨rfl, rfl⟩

/-- Witness for C4 at a fresh state, whose cache is the sentinel. -/
theorem C4_witness :
    (GlobalRuntimeState.new e0).fn_hash_indexing = (0, 0)
    ∧ (GlobalRuntimeState.new e0).hash_idx_get.2.hash_idx_set
        = ((GlobalRuntimeState.new e0).hash_idx_get.2.fn_hash_indexing.2,
            (GlobalRuntimeState.new e0).hash_idx_get.2) := by
  have h := C4_hash_memoization (GlobalRuntimeState.new e0) rfl
  exact ⟨rfl, h.2.2.1⟩

/-- C5: cloning a container with an active constants cache shares the cache
by handle while copying the import stack: a constant declared through the
clone is observed through the original's handle, while a `push_import`
through the clone leaves the original's import stack (and its modules)
unchanged — only the clone's private copy grows. -/
theorem C5_clone_sharing (hp : ConstHeap) (g : GlobalRuntimeState) (h : Nat)
    (name : String) (v : Dyn) (impName : String) (mod : SharedModule)
    (hc : g.constants = some h) :
    getConstant (cloneDeclarePush hp g name v impName mod).1
        (cloneDeclarePush hp g name v impName mod).2.1 name = some v
    ∧ (cloneDeclarePush hp g name v impName mod).2.1.imports = g.imports
    ∧ (cloneDeclarePush hp g name v impName mod).2.1.modules = g.modules
    ∧ (cloneDeclarePush hp g name v impName mod).2.2.imports
        = g.imports ++ [impName] := by
  refine ⟨?_, rfl, rfl, rfl⟩
  show getConstant (declareConstant hp g.clone name v) g name = some v
  simp [GlobalRuntimeState.clone, declareConstant, getConstant, hc,
    heapUpdate, constMapFind_insert]

/-- A fresh container given an active (empty-map) constants-cache handle. -/
def gC : GlobalRuntimeState :=
  { GlobalRuntimeState.new e0 with constants := some 0 }

/-- A constants heap whose every cell is the empty map. -/
def hp0 : ConstHeap := fun _ => []

/-- Witness for C5: through the clone of `gC`, declare `x = 7` and push an
import; the original reads back `7` while the clone alone has the import. -/
theorem C5_witness :
    gC.constants = some 0
    ∧ getConstant (cloneDeclarePush hp0 gC "x" 7 "m" modA).1
        (cloneDeclarePush hp0 gC "x" 7 "m" modA).2.1 "x" = some 7
    ∧ (cloneDeclarePush hp0 gC "x" 7 "m" modA).2.2.imports
        = gC.imports ++ ["m"] := by
  have h := C5_clone_sharing hp0 gC 0 "x" 7 "m" modA rfl
  exact ⟨rfl, h.1, h.2.2.2⟩

/-- C6: `get_qualified_fn` and `get_iter` scan the module stack
innermost-first: whenever the entry at index `i` matches and no entry at a
higher index does, the result is the entry of module `i` — hence on a
collision across imported modules, the most recently imported one wins. -/
theorem C6_qualified_lookup_last (g : GlobalRuntimeState) (hash tid : Nat) :
    (∀ (i : Nat) (m : Module) (f : Nat),
        g.modules[i]? = some m → m.fns hash = some f →
        (∀ j, i < j → ∀ mp, g.modules[j]? = some mp → mp.fns hash = none) →
        g.get_qualified_fn hash = some (f, m.id_raw))
    ∧ (∀ (i : Nat) (m : Module) (it : Nat),
        g.modules[i]? = some m → m.iters tid = some it →
        (∀ j, i < j → ∀ mp, g.modules[j]? = some mp → mp.iters tid = none) →
        g.get_iter tid = some it) := by
  constructor
  · intro i m f hm hf hlast
    refine findSome?_reverse_last _ g.modules i m (f, m.id_raw) hm ?_ ?_
    · show (m.get_qualified_fn hash).map (fun fv => (fv, m.id_raw)) = some (f, m.id_raw)
      unfold Module.get_qualified_fn
      rw [hf]
      rfl
    · intro j hj y hy
      show (y.get_qualified_fn hash).map (fun fv => (fv, y.id_raw)) = none
      unfold Module.get_qualified_fn
      rw [hlast j hj y hy]
      rfl
  · intro i m it hm hit hlast
    refine findSome?_reverse_last _ g.modules i m it hm ?_ ?_
    · show m.get_qualified_iter tid = some it
      unfold Module.get_qualified_iter
      exact hit
    · intro j hj y hy
      show y.get_qualified_iter tid = none
      unfold Module.get_qualified_iter
      exact hlast j hj y hy

/-- Witness for C6: with `modA` then `modB` imported, both exposing hash 5
and iterator tag 9, lookup returns `modB`'s function and iterator. -/
theorem C6_witness :
    (((GlobalRuntimeState.new e0).push_import "a" modA).push_import
        "b" modB).get_qualified_fn 5 = some (2, some "B")
    ∧ (((GlobalRuntimeState.new e0).push_import "a" modA).push_import
        "b" modB).get_iter 9 = some 22 := by
  have h := C6_qualified_lookup_last
    (((GlobalRuntimeState.new e0).push_import "a" modA).push_import "b" modB) 5 9
  refine ⟨h.1 1 modB 2 rfl rfl ?_, h.2 1 modB 22 rfl rfl ?_⟩ <;>
  · intro j hj mp hmp
    have hlen : (((GlobalRuntimeState.new e0).push_import "a" modA).push_import
        "b" modB).modules.length = 2 := rfl
    rw [List.getElem?_eq_none (by omega)] at hmp
    exact Option.noConfusion hmp

/-- C7: on an empty import stack every qualified lookup returns explicit
absence — the membership queries return `false` and the getters and
`find_import` return `none` — for every hash, type tag and name. -/
theorem C7_empty_absence (g : GlobalRuntimeState)
    (hi : g.imports = []) (hm : g.modules = []) :
    (∀ hash, g.contains_qualified_fn hash = false)
    ∧ (∀ hash, g.may_contain_dynamic_fn hash = false)
    ∧ (∀ tid, g.contains_iter tid = false)
    ∧ (∀ hash, g.get_qualified_fn hash = none)
    ∧ (∀ tid, g.get_iter tid = none)
    ∧ (∀ name, g.find_import name = none) := by
  refine ⟨?_, ?_, ?_, ?_, ?_, ?_⟩ <;> intro x
  · simp [GlobalRuntimeState.contains_qualified_fn, hm]
  · simp [GlobalRuntimeState.may_contain_dynamic_fn, hm]
  · simp [GlobalRuntimeState.contains_iter, hm]
  · simp [GlobalRuntimeState.get_qualified_fn, hm]
  · simp [GlobalRuntimeState.get_iter, hm]
  · simp [GlobalRuntimeState.find_import, findImportList, hi]

/-- Witness for C7 at the fresh state, whose import stack is empty. -/
theorem C7_witness :
    (GlobalRuntimeState.new e0).imports = []
    ∧ (GlobalRuntimeState.new e0).modules = []
    ∧ (GlobalRuntimeState.new e0).contains_qualified_fn 5 = false
    ∧ (GlobalRuntimeState.new e0).get_qualified_fn 5 = none
    ∧ (GlobalRuntimeState.new e0).find_import "m" = none := by
  have h := C7_empty_absence (GlobalRuntimeState.new e0) rfl rfl
  exact ⟨rfl, rfl, h.1 5, h.2.2.2.1 5, h.2.2.2.2.2 "m"⟩

/-- The `Extend` impl never touches the always-search flag. -/
theorem extend_always_search (l : List (String × SharedModule)) :
    ∀ g : GlobalRuntimeState,
      (g.extend l).always_search_scope = g.always_search_scope := by
  induction l with
  | nil => intro g; rfl
  | cons km rest ih => intro g; exact ih (g.push_import km.1 km.2)

/-- C8: the always-search-by-name flag is `false` on a freshly constructed
state, and every operation of this component leaves the flag exactly as it
was — in particular none ever resets it from `true` back to `false`. -/
theorem C8_always_search_flag :
    (∀ e : Engine, (GlobalRuntimeState.new e).always_search_scope = false)
    ∧ (∀ (g : GlobalRuntimeState) (n : String) (m : SharedModule),
        (g.push_import n m).always_search_scope = g.always_search_scope)
    ∧ (∀ (g : GlobalRuntimeState) (n : Nat),
        (g.truncate_imports n).always_search_scope = g.always_search_scope)
    ∧ (∀ (g : GlobalRuntimeState) (l : List (String × SharedModule)),
        (g.extend l).always_search_scope = g.always_search_scope)
    ∧ (∀ g : GlobalRuntimeState,
        g.hash_idx_get.2.always_search_scope = g.always_search_scope)
    ∧ (∀ g : GlobalRuntimeState,
        g.hash_idx_set.2.always_search_scope = g.always_search_scope)
    ∧ (∀ g : GlobalRuntimeState,
        g.clone.always_search_scope = g.always_search_scope) := by
  refine ⟨fun e => rfl, fun g n m => rfl, fun g n => rfl,
    fun g l => extend_always_search l g, ?_, ?_, fun g => rfl⟩
  · intro g
    by_cases hc : g.fn_hash_indexing = (0, 0)
    · rw [hash_idx_get_uncomputed g hc]
    · rw [hash_idx_get_computed g hc]
  · intro g
    by_cases hc : g.fn_hash_indexing = (0, 0)
    · rw [hash_idx_set_uncomputed g hc]
    · rw [hash_idx_set_computed g hc]

/-- C9: membership by hash in the import stack agrees with lookup by hash —
`contains_qualified_fn` is `true` exactly when `get_qualified_fn` is `some`
— although the former scans the modules forward and the latter in
reverse. -/
theorem C9_contains_iff_get (g : GlobalRuntimeState) (hash : Nat) :
    g.contains_qualified_fn hash = true
      ↔ (g.get_qualified_fn hash).isSome = true := by
  unfold GlobalRuntimeState.contains_qualified_fn GlobalRuntimeState.get_qualified_fn
  rw [isSome_findSome?, List.any_reverse]
  have hfun : (fun m : Module => ((m.get_qualified_fn hash).map
      (fun f => (f, m.id_raw))).isSome)
      = fun m : Module => m.contains_qualified_fn hash := by
    funext m
    unfold Module.contains_qualified_fn Module.get_qualified_fn
    rw [Option.isSome_map']
  rw [hfun]

/-- C10: the `source()` accessor returns `none` exactly when the stored
source field is `none`; a stored string — the empty string included — is
returned as `some` of that string, never collapsed to absence. -/
theorem C10_source_accessor (g : GlobalRuntimeState) :
    (g.source_accessor = none ↔ g.source = none)
    ∧ (∀ s, g.source = some s → g.source_accessor = some s) := by
  constructor
  · unfold GlobalRuntimeState.source_accessor
    cases g.source <;> simp
  · intro s hs
    unfold GlobalRuntimeState.source_accessor
    rw [hs]
    rfl

/-- A container whose stored source label is the empty string. -/
def gSrc : GlobalRuntimeState :=
  { GlobalRuntimeState.new e0 with source := some "" }

/-- Witness for C10: a stored empty source label is returned as
`some ""`, not as absence. -/
theorem C10_witness :
    gSrc.source = some "" ∧ gSrc.source_accessor = some "" :=
  ⟨rfl, (C10_source_accessor gSrc).2 "" rfl⟩

end Rhai
